import Mathlib

/-!
Shallow embedding of the `rst` REST library (package `rst`) for checking its
natural-language specification.

Conventions used throughout:

* Go `uint64` values are modelled as `Nat` together with explicit `% 2^64`
  (or saturation) at the points where the Go code can overflow.
* Go `time.Time` instants are modelled as `Int` nanoseconds since the epoch
  (`time.Time.Sub` yields a nanosecond `Duration`; `d.Seconds() >= 0` and
  `d < 0` only inspect the sign of that integer, which the float conversion
  preserves, so the comparisons are modelled on the integers directly).
* `time.Parse(rfc1123, raw)` is a standard-library call; a request field of
  type `Option Int` stands for its outcome on the corresponding header
  (`some t` exactly when the header value parses, `t` the parsed instant;
  an RFC-1123 date always denotes a whole second, so such a `t` is a
  multiple of `10^9` nanoseconds).
* `http.Header` is modelled as an association list from key to the list of
  values of that key, with Go's `Get`/`Set`/`Add` semantics.  All header
  keys appearing in the embedded code are already in canonical form, so the
  canonicalisation performed by `net/http` is the identity on them.
-/

namespace Rst

/-! ### Small string utilities mirroring the Go standard library -/

/-- ASCII upper-casing of one character (agrees with Go's `strings.ToUpper`
on the ASCII strings this library compares). -/
def asciiUpperChar (c : Char) : Char :=
  if 'a' ≤ c ∧ c ≤ 'z' then Char.ofNat (c.toNat - 32) else c

/-- ASCII lower-casing of one character. -/
def asciiLowerChar (c : Char) : Char :=
  if 'A' ≤ c ∧ c ≤ 'Z' then Char.ofNat (c.toNat + 32) else c

/-- `strings.ToUpper`, restricted to ASCII (all method names compared by the
library are ASCII). -/
def asciiUpper (s : String) : String :=
  ⟨s.data.map asciiUpperChar⟩

/-- `strings.Join(l, sep)`. -/
def joinSep (sep : String) : List String → String
  | [] => ""
  | x :: xs => xs.foldl (fun acc s => acc ++ sep ++ s) x

/-- `strings.Trim(s, " ")`: strip leading and trailing spaces. -/
def trimSpaces (s : String) : String :=
  ⟨((s.data.dropWhile (fun c => c = ' ')).reverse.dropWhile (fun c => c = ' ')).reverse⟩

/-! ### The `http.Header` model

`net/http`'s `Header` is a Go map from canonical key to a slice of values.
A map is modelled as an association list with at most one entry per key;
each operation below implements the observable behaviour of the
corresponding `http.Header` method on such a map. -/

/-- `http.Header`: keys mapped to their value lists. -/
abbrev Header := List (String × List String)

/-- The value slice stored under a key (`[]` when the key is absent). -/
def hValues : Header → String → List String
  | [], _ => []
  | (k', vs) :: t, k => if k' = k then vs else hValues t k

/-- Whether the key is present (Go `_, ok := h[k]`). -/
def hHasKey : Header → String → Bool
  | [], _ => false
  | (k', _) :: t, k => k' = k || hHasKey t k

/-- `http.Header.Get`: first value of the key, `""` when absent. -/
def hGet (h : Header) (k : String) : String :=
  (hValues h k).headD ""

/-- Drop the entry of a key. -/
def hRemove (h : Header) (k : String) : Header :=
  h.filter (fun p => decide (p.1 ≠ k))

/-- `http.Header.Set`: the key now maps exactly to the one value. -/
def hSet (h : Header) (k v : String) : Header :=
  hRemove h k ++ [(k, [v])]

/-- `http.Header.Add`: append a value to the key's slice. -/
def hAdd (h : Header) (k v : String) : Header :=
  if hHasKey h k then hRemove h k ++ [(k, hValues h k ++ [v])]
  else h ++ [(k, [v])]

/-- `addVary` (headers.go): add `value` to the `Vary` header unless it is
already one of its values.  The canonicalisation it applies is the identity
on the values the library passes (`Accept`, `Accept-Encoding`, `Range`,
`Origin`). -/
def addVary (h : Header) (value : String) : Header :=
  if hHasKey h "Vary" ∧ (hValues h "Vary").contains value then h
  else hAdd h "Vary" value

theorem hValues_cons (k' : String) (vs : List String) (t : Header) (k : String) :
    hValues ((k', vs) :: t) k = if k' = k then vs else hValues t k := rfl

theorem hHasKey_cons (k' : String) (vs : List String) (t : Header) (k : String) :
    hHasKey ((k', vs) :: t) k = (decide (k' = k) || hHasKey t k) := rfl

theorem hRemove_cons (k0 : String) (vs : List String) (t : Header) (k : String) :
    hRemove ((k0, vs) :: t) k
      = if k0 = k then hRemove t k else (k0, vs) :: hRemove t k := by
  by_cases h : k0 = k <;> simp [hRemove, List.filter_cons, h]

theorem hValues_eq_nil (k : String) : ∀ h : Header, hHasKey h k = false → hValues h k = []
  | [], _ => rfl
  | (k0, vs) :: t, hh => by
      rw [hHasKey_cons, Bool.or_eq_false_iff] at hh
      rw [hValues_cons, if_neg (by simpa using hh.1)]
      exact hValues_eq_nil k t hh.2

theorem hValues_append (l1 l2 : Header) (k : String) :
    hValues (l1 ++ l2) k = if hHasKey l1 k then hValues l1 k else hValues l2 k := by
  induction l1 with
  | nil => simp [hValues, hHasKey]
  | cons p t ih =>
      obtain ⟨k', vs⟩ := p
      by_cases hk : k' = k
      · rw [List.cons_append, hValues_cons, hValues_cons, hHasKey_cons, if_pos hk, if_pos hk]
        simp [hk]
      · rw [List.cons_append, hValues_cons, hValues_cons, hHasKey_cons,
          if_neg hk, if_neg hk, ih]
        simp [hk]

theorem hHasKey_append (l1 l2 : Header) (k : String) :
    hHasKey (l1 ++ l2) k = (hHasKey l1 k || hHasKey l2 k) := by
  induction l1 with
  | nil => simp [hHasKey]
  | cons p t ih =>
      obtain ⟨k', vs⟩ := p
      rw [List.cons_append, hHasKey_cons, hHasKey_cons, ih, Bool.or_assoc]

theorem hValues_hRemove (h : Header) (k k' : String) :
    hValues (hRemove h k) k' = if k = k' then [] else hValues h k' := by
  induction h with
  | nil => simp [hValues, hRemove]
  | cons p t ih =>
      obtain ⟨k0, vs⟩ := p
      rw [hRemove_cons]
      by_cases hk : k0 = k
      · rw [if_pos hk, ih, hValues_cons]
        by_cases he : k = k'
        · simp [he]
        · rw [if_neg he, if_neg he, if_neg (by rw [hk]; intro hc; first | exact he hc | exact he hc.symm)]
      · rw [if_neg hk, hValues_cons, hValues_cons, ih]
        by_cases he : k0 = k'
        · rw [if_pos he, if_pos he, if_neg (by rw [← he]; intro hc; first | exact hk hc | exact hk hc.symm)]
        · rw [if_neg he, if_neg he]

theorem hHasKey_hRemove (h : Header) (k k' : String) :
    hHasKey (hRemove h k) k' = if k = k' then false else hHasKey h k' := by
  induction h with
  | nil => simp [hHasKey, hRemove]
  | cons p t ih =>
      obtain ⟨k0, vs⟩ := p
      rw [hRemove_cons]
      by_cases hk : k0 = k
      · rw [if_pos hk, ih, hHasKey_cons]
        by_cases he : k = k'
        · simp [he]
        · rw [if_neg he, if_neg he]
          have : ¬ k0 = k' := by rw [hk]; exact fun hc => he hc
          simp [this]
      · rw [if_neg hk, hHasKey_cons, hHasKey_cons, ih]
        by_cases he : k = k'
        · rw [if_pos he, if_pos he]
          have : ¬ k0 = k' := by rw [← he]; exact fun hc => hk hc
          simp [this]
        · rw [if_neg he, if_neg he]

theorem hGet_hSet_same (h : Header) (k v : String) :
    hGet (hSet h k v) k = v := by
  unfold hGet hSet
  rw [hValues_append, hHasKey_hRemove, hValues_hRemove]
  simp [hValues]

theorem hGet_hSet_ne (h : Header) (k k' v : String) (hk : k ≠ k') :
    hGet (hSet h k v) k' = hGet h k' := by
  unfold hGet hSet
  rw [hValues_append, hHasKey_hRemove, hValues_hRemove, if_neg hk, if_neg hk]
  by_cases hh : hHasKey h k' = true
  · rw [if_pos hh]
  · rw [if_neg hh, hValues_cons,
      if_neg (fun hc : k = k' => hk hc), hValues,
      hValues_eq_nil k' h (by simpa using hh)]

theorem hHasKey_hSet_same (h : Header) (k v : String) :
    hHasKey (hSet h k v) k = true := by
  unfold hSet
  rw [hHasKey_append, hHasKey_hRemove]
  simp [hHasKey]

theorem hHasKey_hSet_ne (h : Header) (k k' v : String) (hk : k ≠ k') :
    hHasKey (hSet h k v) k' = hHasKey h k' := by
  unfold hSet
  rw [hHasKey_append, hHasKey_hRemove, if_neg hk, hHasKey_cons, hHasKey]
  simp [hk]

theorem hGet_hAdd_ne (h : Header) (k k' v : String) (hk : k ≠ k') :
    hGet (hAdd h k v) k' = hGet h k' := by
  unfold hGet hAdd
  by_cases hh : hHasKey h k = true
  · rw [if_pos hh, hValues_append, hHasKey_hRemove, hValues_hRemove,
      if_neg hk, if_neg hk]
    by_cases hq : hHasKey h k' = true
    · rw [if_pos hq]
    · rw [if_neg hq, hValues_cons, if_neg (fun hc : k = k' => hk hc), hValues,
        hValues_eq_nil k' h (by simpa using hq)]
  · rw [if_neg hh, hValues_append]
    by_cases hq : hHasKey h k' = true
    · rw [if_pos hq]
    · rw [if_neg hq, hValues_cons, if_neg (fun hc : k = k' => hk hc), hValues,
        hValues_eq_nil k' h (by simpa using hq)]

theorem hHasKey_hAdd_ne (h : Header) (k k' v : String) (hk : k ≠ k') :
    hHasKey (hAdd h k v) k' = hHasKey h k' := by
  unfold hAdd
  by_cases hh : hHasKey h k = true
  · rw [if_pos hh, hHasKey_append, hHasKey_hRemove, if_neg hk, hHasKey_cons, hHasKey]
    simp [hk]
  · rw [if_neg hh, hHasKey_append, hHasKey_cons, hHasKey]
    simp [hk]

theorem hGet_addVary_ne (h : Header) (k' v : String) (hk : "Vary" ≠ k') :
    hGet (addVary h v) k' = hGet h k' := by
  unfold addVary
  by_cases hc : hHasKey h "Vary" = true ∧ (hValues h "Vary").contains v = true
  · rw [if_pos hc]
  · rw [if_neg hc]
    exact hGet_hAdd_ne h "Vary" k' v hk

theorem hHasKey_addVary_ne (h : Header) (k' v : String) (hk : "Vary" ≠ k') :
    hHasKey (addVary h v) k' = hHasKey h k' := by
  unfold addVary
  by_cases hc : hHasKey h "Vary" = true ∧ (hValues h "Vary").contains v = true
  · rw [if_pos hc]
  · rw [if_neg hc]
    exact hHasKey_hAdd_ne h "Vary" k' v hk
/-! ### Splitting and searching, on character lists

`String.splitOn` and friends are opaque to kernel reduction, so the Go
string functions are implemented here directly over `List Char`.  All
separators used by the library are single characters. -/

/-- `strings.Split(s, sep)` for a one-character separator; on the empty
string it yields one empty field, like Go. -/
def splitOnChar (sep : Char) : List Char → List (List Char)
  | [] => [[]]
  | c :: cs =>
      if c = sep then [] :: splitOnChar sep cs
      else
        match splitOnChar sep cs with
        | [] => [[c]]
        | x :: xs => (c :: x) :: xs

/-- String-level `strings.Split` with a one-character separator. -/
def goSplit (sep : Char) (s : String) : List String :=
  (splitOnChar sep s.data).map (fun l => ⟨l⟩)

/-- Does `pat` occur at the start of `l`? -/
def isPrefListOf : List Char → List Char → Bool
  | [], _ => true
  | _ :: _, [] => false
  | p :: ps, c :: cs => p = c && isPrefListOf ps cs

/-- `strings.Contains(s, pat)`. -/
def goContains (s pat : String) : Bool :=
  go pat.data s.data
where
  go (pat : List Char) : List Char → Bool
    | [] => isPrefListOf pat []
    | c :: cs => isPrefListOf pat (c :: cs) || go pat cs

/-- `strings.SplitN(s, "=", 2)`: at most two fields, split at the first
`=`. -/
def splitN2eq (s : String) : List String :=
  match goSplit '=' s with
  | [x] => [x]
  | x :: rest => [x, joinSep "=" rest]
  | [] => []

/-! ### The resource and request model, and `writeResource`

A `Resrc` carries the data of the `Resource` interface (handlers.go): the
`ETag()` string, the `LastModified()` instant and the `TTL()` duration
(both in nanoseconds).  Two further fields record the optional capabilities
`writeResource` inspects:

* `isRawHandler`: whether the resource implements `http.Handler`, in which
  case `writeResource` hands the response writer over to it;
* `marshal`: the outcome of `Marshal(resource, r)` as a function of the
  request's `Accept` header — `none` when encoding fails, otherwise the
  negotiated content type and encoded bytes.  (`Marshal` reads the request
  only through its `Accept` header on the generic `MarshalResource` path;
  a custom `MarshalRST` implementation receives the whole request and is
  outside this model.)

A `Req` carries the request fields `writeResource` and the conditional
helpers read.  `ifModifiedSince`/`ifUnmodifiedSince` hold the result of
`time.Parse(rfc1123, header)`: `some t` exactly when the header parses,
with `t` the instant in nanoseconds (a whole second for an RFC-1123 date).
The plain `String` header fields are `""` when the header is absent,
exactly as `http.Header.Get` reports them. -/

/-- Encoded bytes. -/
abbrev Bytes := List Nat

/-- A resource, as seen by `writeResource` (handlers.go). -/
structure Resrc where
  etag : String
  lastModified : Int
  ttl : Int
  isRawHandler : Bool
  marshal : String → Option (String × Bytes)

/-- The request fields read by `writeResource` and `ValidateConditions`. -/
structure Req where
  method : String
  accept : String
  acceptEncoding : String
  ifModifiedSince : Option Int
  ifNoneMatch : String
  ifUnmodifiedSince : Option Int
  ifMatch : String

/-- One written HTTP response: status, headers, body bytes. -/
structure Response where
  status : Nat
  headers : Header
  body : Bytes
deriving DecidableEq

/-- What `writeResource` does with the response writer: either it writes a
complete response itself, or it delegates to the resource's own
`http.Handler`, or it defers to the error writer (`writeError`), in the
latter two cases with the headers it has set so far. -/
inductive WROutcome where
  | wrote (resp : Response)
  | delegated (headers : Header)
  | errored (headers : Header)
deriving DecidableEq

/-- Stand-in for Go's `time.Time.Format(rfc1123)` composed with `.UTC()`:
an injective rendering of the instant.  No theorem below inspects the text
of a formatted date; dates are only compared for equality, and equal
instants format equally. -/
def rfc1123Format (t : Int) : String :=
  "rfc1123:" ++ toString t

/-- `CompressionThreshold` (rst.go): minimal body length for compression. -/
def CompressionThreshold : Nat := 860

/-- `getCompressionFormat` (rst.go). -/
def getCompressionFormat (b : Bytes) (r : Req) : String :=
  if b.length < CompressionThreshold then ""
  else if goContains r.acceptEncoding "gzip" then "gzip"
  else if goContains r.acceptEncoding "deflate" then "deflate"
  else ""

/-- The `If-Modified-Since` test of `writeResource` (handlers.go line 575):
the header parses and `t.Sub(lastModified).Seconds() >= 0`; the duration is
an integer of nanoseconds and the float conversion preserves its sign, so
the test is `t - lastModified ≥ 0`. -/
def ifModifiedSinceHit (res : Resrc) (r : Req) : Bool :=
  match r.ifModifiedSince with
  | some t => decide (t - res.lastModified ≥ 0)
  | none => false

/-- The `If-None-Match` test of `writeResource` (handlers.go line 584):
some field of the semicolon-split header value equals the ETag (an absent
header reads as `""`, whose split is the single field `""`). -/
def ifNoneMatchHit (res : Resrc) (r : Req) : Bool :=
  (goSplit ';' r.ifNoneMatch).any (fun t => t = res.etag)

/-- `writeResource` (handlers.go lines 573–645).  `w0` is the header state
of the response writer on entry (the Get path may already have set
`Content-Range`); `now` is the current instant, a parameter in place of
`time.Now()`. -/
def writeResource (res : Resrc) (r : Req) (w0 : Header) (now : Int) : WROutcome :=
  if ifModifiedSinceHit res r then .wrote ⟨304, w0, []⟩
  else if ifNoneMatchHit res r then .wrote ⟨304, w0, []⟩
  else
    let h1 := addVary w0 "Accept"
    let h2 := hSet h1 "Last-Modified" (rfc1123Format res.lastModified)
    let h3 := hSet h2 "ETag" res.etag
    let h4 := hSet h3 "Expires" (rfc1123Format (now + res.ttl))
    if res.isRawHandler then .delegated h4
    else
      match res.marshal r.accept with
      | none => .errored h4
      | some (ct, b) =>
        let h5 := hSet h4 "Content-Type" ct
        let compression := getCompressionFormat b r
        let h6 := if compression ≠ "" then
            addVary (hSet h5 "Content-Encoding" compression) "Accept-Encoding"
          else h5
        if asciiUpper r.method = "POST" then .wrote ⟨201, h6, b⟩
        else if b.length = 0 then .wrote ⟨204, h6, []⟩
        else
          let status := if hGet h6 "Content-Range" ≠ "" then 206 else 200
          if asciiUpper r.method = "HEAD" then .wrote ⟨status, h6, []⟩
          else .wrote ⟨status, h6, b⟩

/-- `ValidateConditions` (handlers.go lines 520–530). -/
def ValidateConditions (resource : Resrc) (r : Req) : Bool :=
  if (match r.ifUnmodifiedSince with
      | some d => decide (d - resource.lastModified < 0)
      | none => false) then true
  else if r.ifMatch ≠ "" ∧ r.ifMatch ≠ resource.etag then true
  else false
/-- Headers present when `writeResource` reaches its status-writing tail:
`Vary: Accept`, `Last-Modified`, `ETag`, `Expires`, `Content-Type`, and the
compression headers when compression applies. -/
def wrHeaders (res : Resrc) (r : Req) (w0 : Header) (now : Int)
    (ct : String) (b : Bytes) : Header :=
  let h4 := hSet (hSet (hSet (addVary w0 "Accept")
    "Last-Modified" (rfc1123Format res.lastModified)) "ETag" res.etag)
    "Expires" (rfc1123Format (now + res.ttl))
  let h5 := hSet h4 "Content-Type" ct
  let compression := getCompressionFormat b r
  if compression ≠ "" then
    addVary (hSet h5 "Content-Encoding" compression) "Accept-Encoding"
  else h5

theorem ifModifiedSinceHit_iff (res : Resrc) (r : Req) :
    ifModifiedSinceHit res r = true ↔
      ∃ t, r.ifModifiedSince = some t ∧ res.lastModified ≤ t := by
  unfold ifModifiedSinceHit
  rcases hd : r.ifModifiedSince with _ | t
  · simp
  · simp [ge_iff_le, sub_nonneg]

theorem ifNoneMatchHit_iff (res : Resrc) (r : Req) :
    ifNoneMatchHit res r = true ↔
      ∃ e ∈ goSplit ';' r.ifNoneMatch, e = res.etag := by
  unfold ifNoneMatchHit
  simp [List.any_eq_true]

/-- The tail of `writeResource`, once both conditional tests have missed,
the resource is not an `http.Handler`, and encoding has succeeded. -/
theorem writeResource_wrote (res : Resrc) (r : Req) (w0 : Header) (now : Int)
    (ct : String) (b : Bytes)
    (h1 : ifModifiedSinceHit res r = false) (h2 : ifNoneMatchHit res r = false)
    (hraw : res.isRawHandler = false) (hm : res.marshal r.accept = some (ct, b)) :
    writeResource res r w0 now = .wrote
      ⟨(if asciiUpper r.method = "POST" then 201
        else if b.length = 0 then 204
        else if hGet (wrHeaders res r w0 now ct b) "Content-Range" ≠ "" then 206 else 200),
       wrHeaders res r w0 now ct b,
       (if asciiUpper r.method = "POST" then b
        else if b.length = 0 then []
        else if asciiUpper r.method = "HEAD" then [] else b)⟩ := by
  unfold writeResource wrHeaders
  rw [h1, h2, hraw, hm]
  simp only [Bool.false_eq_true, if_false]
  by_cases hp : asciiUpper r.method = "POST"
  · simp [hp]
  · by_cases hb : b.length = 0
    · simp [hp, hb]
    · by_cases hh : asciiUpper r.method = "HEAD" <;> simp [hp, hb, hh]

/-- All keys `wrHeaders` touches differ from `Content-Range`, so whether a
`Content-Range` header "has already been set" is decided by `w0`. -/
theorem hGet_wrHeaders_contentRange (res : Resrc) (r : Req) (w0 : Header)
    (now : Int) (ct : String) (b : Bytes) :
    hGet (wrHeaders res r w0 now ct b) "Content-Range" = hGet w0 "Content-Range" := by
  unfold wrHeaders
  by_cases hc : getCompressionFormat b r ≠ ""
  · rw [if_pos hc, hGet_addVary_ne _ _ _ (by decide),
      hGet_hSet_ne _ _ _ _ (by decide), hGet_hSet_ne _ _ _ _ (by decide),
      hGet_hSet_ne _ _ _ _ (by decide), hGet_hSet_ne _ _ _ _ (by decide),
      hGet_hSet_ne _ _ _ _ (by decide), hGet_addVary_ne _ _ _ (by decide)]
  · rw [if_neg hc, hGet_hSet_ne _ _ _ _ (by decide),
      hGet_hSet_ne _ _ _ _ (by decide), hGet_hSet_ne _ _ _ _ (by decide),
      hGet_hSet_ne _ _ _ _ (by decide), hGet_addVary_ne _ _ _ (by decide)]
/-- `wrHeaders` does not read the request method. -/
theorem wrHeaders_method (res : Resrc) (r : Req) (w0 : Header) (now : Int)
    (ct : String) (b : Bytes) (m : String) :
    wrHeaders res { r with method := m } w0 now ct b = wrHeaders res r w0 now ct b := rfl

/-- C1: once a request reaches `writeResource` past the conditional-request
short-circuit, with a resource that is not a raw `http.Handler` and whose
encoding succeeds with body `b`, the status written is 201 for a POST
request regardless of `b`'s length, otherwise 204 when `b` is empty,
otherwise 206 when a `Content-Range` header had already been set on the
response writer and 200 when not; and a HEAD request is written with
exactly the headers and status of the corresponding GET request but zero
body bytes. -/
theorem writeResource_shared_status (res : Resrc) (r : Req) (w0 : Header) (now : Int)
    (ct : String) (b : Bytes)
    (h1 : ifModifiedSinceHit res r = false) (h2 : ifNoneMatchHit res r = false)
    (hraw : res.isRawHandler = false) (hm : res.marshal r.accept = some (ct, b)) :
    (writeResource res r w0 now = .wrote
      ⟨(if asciiUpper r.method = "POST" then 201
        else if b.length = 0 then 204
        else if hGet w0 "Content-Range" ≠ "" then 206 else 200),
       wrHeaders res r w0 now ct b,
       (if asciiUpper r.method = "POST" then b
        else if b.length = 0 then []
        else if asciiUpper r.method = "HEAD" then [] else b)⟩)
    ∧ (∃ s hs, writeResource res { r with method := "GET" } w0 now
          = .wrote ⟨s, hs, if b.length = 0 then [] else b⟩
        ∧ writeResource res { r with method := "HEAD" } w0 now
          = .wrote ⟨s, hs, []⟩) := by
  constructor
  · rw [writeResource_wrote res r w0 now ct b h1 h2 hraw hm,
      hGet_wrHeaders_contentRange]
  · have hg := writeResource_wrote res { r with method := "GET" } w0 now ct b h1 h2 hraw hm
    have hh := writeResource_wrote res { r with method := "HEAD" } w0 now ct b h1 h2 hraw hm
    refine ⟨(if b.length = 0 then 204
        else if hGet (wrHeaders res r w0 now ct b) "Content-Range" ≠ "" then 206 else 200),
      wrHeaders res r w0 now ct b, ?_, ?_⟩
    · rw [hg]
      have hup : ¬ asciiUpper "GET" = "POST" := by decide
      have hup2 : ¬ asciiUpper "GET" = "HEAD" := by decide
      by_cases hb : b.length = 0 <;> simp [hb, hup, hup2, wrHeaders_method]
    · rw [hh]
      have hup : ¬ asciiUpper "HEAD" = "POST" := by decide
      have hup2 : asciiUpper "HEAD" = "HEAD" := by decide
      by_cases hb : b.length = 0 <;> simp [hb, hup, hup2, wrHeaders_method]

/-- Closed instance of `writeResource_shared_status`. -/
def c1Res : Resrc :=
  ⟨"e1", 0, 0, false, fun _ => some ("text/plain; charset=utf-8", [97])⟩

/-- Request used by the closed instances: a plain GET with no conditional
headers. -/
def c1Req : Req := ⟨"GET", "", "", none, "", none, ""⟩

theorem writeResource_shared_status_witness :
    ∃ s hs, writeResource c1Res { c1Req with method := "GET" } [] 0
        = .wrote ⟨s, hs, if ([97] : Bytes).length = 0 then [] else [97]⟩
      ∧ writeResource c1Res { c1Req with method := "HEAD" } [] 0
        = .wrote ⟨s, hs, []⟩ :=
  (writeResource_shared_status c1Res c1Req [] 0 "text/plain; charset=utf-8" [97]
    (by decide) (by decide) rfl rfl).2

/-- C2 (amended): `writeResource` responds 304 with no body exactly when
`If-Modified-Since` parses to an instant not earlier than the resource's
`LastModified` — an exact comparison, not one at second granularity — or
some field of the semicolon-split `If-None-Match` value equals the ETag;
otherwise it proceeds to encode. -/
theorem writeResource_conditional_304_iff (res : Resrc) (r : Req) (w0 : Header)
    (now : Int)
    (hmeth : asciiUpper r.method = "GET" ∨ asciiUpper r.method = "HEAD") :
    writeResource res r w0 now = .wrote ⟨304, w0, []⟩ ↔
      ((∃ t, r.ifModifiedSince = some t ∧ res.lastModified ≤ t) ∨
       (∃ e ∈ goSplit ';' r.ifNoneMatch, e = res.etag)) := by
  clear hmeth
  by_cases h1 : ifModifiedSinceHit res r = true
  · apply iff_of_true
    · unfold writeResource
      rw [h1]
      simp
    · exact Or.inl ((ifModifiedSinceHit_iff res r).mp h1)
  · have h1f : ifModifiedSinceHit res r = false := by
      revert h1
      cases ifModifiedSinceHit res r <;> simp
    by_cases h2 : ifNoneMatchHit res r = true
    · apply iff_of_true
      · unfold writeResource
        rw [h1f, h2]
        simp
      · exact Or.inr ((ifNoneMatchHit_iff res r).mp h2)
    · have h2f : ifNoneMatchHit res r = false := by
        revert h2
        cases ifNoneMatchHit res r <;> simp
      apply iff_of_false
      · intro hw
        rcases hraw : res.isRawHandler with _ | _
        · rcases hmar : res.marshal r.accept with _ | ⟨ct, bb⟩
          · unfold writeResource at hw
            rw [h1f, h2f, hraw, hmar] at hw
            simp at hw
          · rw [writeResource_wrote res r w0 now ct bb h1f h2f hraw hmar] at hw
            have hst := congrArg
              (fun o => match o with | WROutcome.wrote resp => resp.status | _ => 0) hw
            simp only [] at hst
            by_cases hp : asciiUpper r.method = "POST"
            · simp [hp] at hst
            · by_cases hb : bb.length = 0
              · simp [hp, hb] at hst
              · by_cases hcr :
                  hGet (wrHeaders res r w0 now ct bb) "Content-Range" ≠ "" <;>
                  simp [hp, hb, hcr] at hst
        · unfold writeResource at hw
          rw [h1f, h2f, hraw] at hw
          simp at hw
      · rintro (ht | he)
        · exact h1 ((ifModifiedSinceHit_iff res r).mpr ht)
        · exact h2 ((ifNoneMatchHit_iff res r).mpr he)

/-- Resource for the C2 counterexample: `LastModified` is half a second
past the whole second 1 (nanoseconds 1500000000). -/
def c2Res : Resrc :=
  ⟨"p1-123", 1500000000, 0, false,
    fun _ => some ("application/json; charset=utf-8", [104, 105])⟩

/-- A GET whose `If-Modified-Since` parses to the whole second 1
(nanoseconds 1000000000). -/
def c2Req : Req := ⟨"GET", "", "", some 1000000000, "", none, ""⟩

/-- Seconds (floored) of an instant in nanoseconds. -/
def secondsFloor (t : Int) : Int := Int.fdiv t 1000000000

/-- C2 counterexample: at second granularity the request date (second 1) is
not earlier than the resource's `LastModified` (second 1), so the claim
demands a 304; the code compares the instants exactly and instead serves
the resource with status 200. -/
theorem writeResource_c2_cex :
    c2Res.lastModified = 1500000000 ∧
    c2Req.ifModifiedSince = some 1000000000 ∧
    secondsFloor c2Res.lastModified ≤ secondsFloor 1000000000 ∧
    (match writeResource c2Res c2Req [] 0 with
     | .wrote resp => resp.status
     | _ => 0) = 200 := by
  refine ⟨rfl, rfl, by decide, ?_⟩
  rw [writeResource_wrote c2Res c2Req [] 0 "application/json; charset=utf-8"
    [104, 105] (by decide) (by decide) rfl rfl]
  simp only []
  rw [if_neg (by decide), if_neg (by decide), if_neg (by simp [hGet_wrHeaders_contentRange, hGet, hValues])]

theorem writeResource_conditional_304_iff_witness :
    writeResource ⟨"p1-123", 1500000000, 0, false, fun _ => none⟩
        ⟨"GET", "", "", none, "p1-123", none, ""⟩ [] 0
      = .wrote ⟨304, [], []⟩ :=
  (writeResource_conditional_304_iff
      ⟨"p1-123", 1500000000, 0, false, fun _ => none⟩
      ⟨"GET", "", "", none, "p1-123", none, ""⟩ [] 0 (Or.inl rfl)).mpr
    (Or.inr (by decide))

/-- C7: `ValidateConditions` returns true exactly when `If-Unmodified-Since`
parses to an instant strictly earlier than the resource's `LastModified`,
or `If-Match` is present (non-empty) and differs from the resource's ETag;
with neither header present both disjuncts are false and it returns false. -/
theorem ValidateConditions_iff (res : Resrc) (r : Req) :
    ValidateConditions res r = true ↔
      ((∃ d, r.ifUnmodifiedSince = some d ∧ d < res.lastModified) ∨
       (r.ifMatch ≠ "" ∧ r.ifMatch ≠ res.etag)) := by
  unfold ValidateConditions
  rcases hd : r.ifUnmodifiedSince with _ | d
  · by_cases hm : r.ifMatch ≠ "" ∧ r.ifMatch ≠ res.etag <;> simp [hd, hm]
  · by_cases hlt : d - res.lastModified < 0
    · simp [hd, hlt, sub_neg.mp hlt]
    · have hle : res.lastModified ≤ d :=
        le_of_not_lt (fun hc => hlt (sub_neg.mpr hc))
      by_cases hm : r.ifMatch ≠ "" ∧ r.ifMatch ≠ res.etag <;>
        simp [hd, hlt, hm, hle]
/-! ### The error model (errors.go)

Only the constructors and fields the claims touch are embedded.  `NewError`
panics for a status below 400 in Go; every embedded constructor passes a
4xx status, so the panic branch is unreachable and omitted. -/

/-- `rst.Error` (errors.go): status code, reason, description and the
headers that will be written with the error response. -/
structure Error where
  code : Nat
  reason : String
  description : String
  header : Header
deriving DecidableEq

/-- `NewError` (errors.go): fresh error with an empty header map. -/
def NewError (code : Nat) (reason description : String) : Error :=
  ⟨code, reason, description, []⟩

/-- `MethodNotAllowed` (errors.go lines 246–255). -/
def MethodNotAllowed (forbidden : String) (allowed : List String) : Error :=
  let methods := joinSep ", " allowed
  let e := NewError 405 (forbidden ++ " method is not allowed for this resource")
    ("This ressource only allows the following methods: " ++ methods ++ ".")
  { e with header := hSet e.header "Allow" methods }

/-- `NotFound` (errors.go). -/
def NotFound : Error :=
  NewError 404 "Not Found" "No resource could be found at the requested URI."

/-- `true` on `Except.ok`. -/
def exceptOk {ε α : Type} : Except ε α → Bool
  | .ok _ => true
  | .error _ => false

deriving instance DecidableEq for Except

/-! ### The Range calculator (headers.go)

`uint64` fields are `Nat` values below `2^64`.  `adjust` computes
`uint64(math.Min(float64(r.To), float64(count-1)))`: the subtraction wraps
modulo `2^64`, both conversions to `float64` round to nearest-even
(`f64round`), `math.Min` of two nonnegative floats is the numeric minimum,
and the conversion back to `uint64` is exact for integral values below
`2^64` (and unspecified by Go above; `goFloatToUint64` saturates there, a
branch no theorem relies on). -/

def U64MOD : Nat := 2 ^ 64

/-- Round a natural number to the nearest `float64` value
(round-to-nearest, ties-to-even); exact below `2^53`. -/
def f64round (n : Nat) : Nat :=
  if n < 2 ^ 53 then n
  else if 2 * (n % 2 ^ (n.log2 - 52)) < 2 ^ (n.log2 - 52) then
    n / 2 ^ (n.log2 - 52) * 2 ^ (n.log2 - 52)
  else if 2 * (n % 2 ^ (n.log2 - 52)) > 2 ^ (n.log2 - 52) then
    (n / 2 ^ (n.log2 - 52) + 1) * 2 ^ (n.log2 - 52)
  else
    (if n / 2 ^ (n.log2 - 52) % 2 = 0 then n / 2 ^ (n.log2 - 52)
     else n / 2 ^ (n.log2 - 52) + 1) * 2 ^ (n.log2 - 52)

/-- Go's `uint64(f)` for an integral float value `f ≥ 0`; unspecified for
`f ≥ 2^64`, modelled as saturation (unreachable in the theorems below). -/
def goFloatToUint64 (v : Nat) : Nat :=
  if v < U64MOD then v else U64MOD - 1

/-- `rst.Range` (headers.go): unit name and inclusive bounds. -/
structure Range where
  unit : String
  From : Nat
  To : Nat
deriving DecidableEq

/-- `rst.ContentRange` (headers.go): an embedded `*Range` (possibly nil)
plus the total count. -/
structure ContentRange where
  range : Option Range
  Total : Nat
deriving DecidableEq

/-- `ContentRange.String` (headers.go lines 229–239). -/
def ContentRange.toStr (cr : ContentRange) : String :=
  if cr.Total = 0 then "*/*"
  else
    match cr.range with
    | none => "*/" ++ toString cr.Total
    | some rg =>
        rg.unit ++ " " ++ toString rg.From ++ "-" ++ toString rg.To
          ++ "/" ++ toString cr.Total

/-- `RequestedRangeNotSatisfiable` (errors.go lines 310–319). -/
def RequestedRangeNotSatisfiable (cr : ContentRange) : Error :=
  let e := NewError 416 "Requested Range Not Satisfiable"
    "The requested range is not available and cannot be served."
  { e with header := addVary (hSet e.header "Content-Range" cr.toStr) "Range" }

/-- `Range.adjust` (headers.go lines 175–183); `count` is the value of
`ranger.Count()`. -/
def Range.adjust (r : Range) (count : Nat) : Except Error Range :=
  if r.From > count then
    .error (RequestedRangeNotSatisfiable ⟨none, count⟩)
  else
    .ok { r with
      To := goFloatToUint64
        (min (f64round r.To) (f64round ((count + (U64MOD - 1)) % U64MOD))) }

/-- `\w` of Go's RE2 without Unicode classes: `[0-9A-Za-z_]`. -/
def isWordChar (c : Char) : Bool :=
  c.isAlpha || c.isDigit || c = '_'

/-- The anchored match of `rangeRe = ^(\w+)=(\d+)-(\d+)?$` (headers.go
line 141), as a deterministic scanner: the character classes of the three
groups exclude the delimiters `=` and `-` that follow them, so greedy
scanning is equivalent to the regex. -/
def matchRangeReL (l : List Char) : Option (List Char × List Char × Option (List Char)) :=
  match l.takeWhile isWordChar, l.dropWhile isWordChar with
  | [], _ => none
  | u, '=' :: r2 =>
      (match r2.takeWhile Char.isDigit, r2.dropWhile Char.isDigit with
       | [], _ => none
       | f, '-' :: r4 =>
           if r4.isEmpty then some (u, f, none)
           else if r4.all Char.isDigit then some (u, f, some r4) else none
       | _, _ => none)
  | _, _ => none

/-- Numeric value of a digit string (unbounded). -/
def digitsVal (l : List Char) : Nat :=
  l.foldl (fun a c => a * 10 + (c.toNat - 48)) 0

/-- `strconv.ParseUint(s, 10, 64)` with its error ignored, as ParseRange
does: on overflow ParseUint reports `ErrRange` and returns the maximum
`uint64`, so the ignored-error value saturates at `2^64 - 1`. -/
def goParseUint64 (l : List Char) : Nat :=
  min (digitsVal l) (U64MOD - 1)

/-- `ParseRange` (headers.go lines 194–220). -/
def ParseRange (raw : String) : Except String Range :=
  match matchRangeReL raw.data with
  | none => .error "malformed Range header value"
  | some (u, f, t?) =>
      match t? with
      | some t =>
          if goParseUint64 f > goParseUint64 t then
            .error "invalid Range header value"
          else .ok ⟨⟨u⟩, goParseUint64 f, goParseUint64 t⟩
      | none => .ok ⟨⟨u⟩, goParseUint64 f, U64MOD - 1⟩

/-- A decomposition of `raw` according to the written grammar
`<unit>=<from>-[<to>]`: `unit` a non-empty word token, `from` a non-empty
digit string, `to` a digit string or empty (empty = omitted). -/
def rangeDecomp (raw : String) (u f t : List Char) : Prop :=
  raw.data = u ++ '=' :: (f ++ '-' :: t) ∧ u ≠ [] ∧ (∀ c ∈ u, isWordChar c) ∧
    f ≠ [] ∧ (∀ c ∈ f, c.isDigit) ∧ (t = [] ∨ ∀ c ∈ t, c.isDigit)
/-- `takeWhile`/`dropWhile` on `u ++ x :: rest` when all of `u` satisfies
the predicate and `x` does not. -/
theorem takeWhile_middle (p : Char → Bool) (x : Char) (hx : p x = false) :
    ∀ (u rest : List Char), (∀ c ∈ u, p c = true) →
      (u ++ x :: rest).takeWhile p = u ∧ (u ++ x :: rest).dropWhile p = x :: rest
  | [], rest, _ => by simp [List.takeWhile_cons, List.dropWhile_cons, hx]
  | c :: cs, rest, hu => by
      have hc : p c = true := hu c (by simp)
      have ih := takeWhile_middle p x hx cs rest (fun d hd => hu d (by simp [hd]))
      simp only [List.cons_append, List.takeWhile_cons, List.dropWhile_cons, hc,
        if_true, ih.1, ih.2, and_self]

/-- A grammar decomposition forces the scanner's answer (so in particular
the decomposition is unique). -/
theorem matchRangeReL_of_decomp (raw : String) (u f t : List Char)
    (h : rangeDecomp raw u f t) :
    matchRangeReL raw.data = some (u, f, if t.isEmpty then none else some t) := by
  obtain ⟨heq, hu0, hu, hf0, hf, ht⟩ := h
  unfold matchRangeReL
  rw [heq]
  have h1 := takeWhile_middle isWordChar '=' (by decide) u (f ++ '-' :: t) hu
  rw [h1.1, h1.2]
  have h2 := takeWhile_middle Char.isDigit '-' (by decide) f t hf
  cases u with
  | nil => exact absurd rfl hu0
  | cons c cs =>
      simp only []
      rw [h2.1, h2.2]
      cases f with
      | nil => exact absurd rfl hf0
      | cons d ds =>
          simp only []
          cases t with
          | nil => simp
          | cons e es =>
              have hall : (e :: es).all Char.isDigit = true := by
                rcases ht with ht | ht
                · exact absurd ht (by simp)
                · exact List.all_eq_true.mpr ht
              simp [hall]

/-- The scanner's answer yields a grammar decomposition, and a `some` third
group is never empty. -/
theorem decomp_of_matchRangeReL (l u f : List Char) (t? : Option (List Char))
    (h : matchRangeReL l = some (u, f, t?)) :
    rangeDecomp ⟨l⟩ u f (t?.getD []) ∧ t? ≠ some [] := by
  unfold matchRangeReL at h
  split at h
  · simp at h
  · rename_i a1 r2 heq2 hne1
    split at h
    · simp at h
    · rename_i b1 r4 heq4 hne3
      have hl : l = l.takeWhile isWordChar ++ '=' :: r2 := by
        conv_lhs => rw [← List.takeWhile_append_dropWhile isWordChar l]
        rw [heq2]
      have hr2 : r2 = r2.takeWhile Char.isDigit ++ '-' :: r4 := by
        conv_lhs => rw [← List.takeWhile_append_dropWhile Char.isDigit r2]
        rw [heq4]
      have humem : ∀ x ∈ l.takeWhile isWordChar, isWordChar x :=
        fun x hx => List.mem_takeWhile_imp hx
      have hfmem : ∀ x ∈ r2.takeWhile Char.isDigit, x.isDigit :=
        fun x hx => List.mem_takeWhile_imp hx
      have hu0 : l.takeWhile isWordChar ≠ [] := fun hc => hne1 hc
      have hf0 : r2.takeWhile Char.isDigit ≠ [] := fun hc => hne3 hc
      by_cases hr4 : r4.isEmpty = true
      · rw [if_pos hr4] at h
        simp only [Option.some.injEq, Prod.mk.injEq] at h
        obtain ⟨rfl, rfl, rfl⟩ := h
        have hr4e : r4 = [] := by simpa using hr4
        subst hr4e
        exact ⟨⟨hl.trans
            (congrArg (fun z => List.takeWhile isWordChar l ++ '=' :: z) hr2),
          hu0, humem, hf0, hfmem, Or.inl rfl⟩, by simp⟩
      · rw [if_neg hr4] at h
        split at h
        · rename_i ha
          simp only [Option.some.injEq, Prod.mk.injEq] at h
          obtain ⟨rfl, rfl, rfl⟩ := h
          refine ⟨⟨hl.trans
              (congrArg (fun z => List.takeWhile isWordChar l ++ '=' :: z) hr2),
            hu0, humem, hf0, hfmem,
            Or.inr (fun x hx => List.all_eq_true.mp ha x hx)⟩, ?_⟩
          intro hc
          rw [Option.some.injEq] at hc
          rw [hc] at hr4
          simp at hr4
        · simp at h
    · simp at h
  · simp at h
/-- Rounding to `float64` never takes a value that is at least `2^53` below
`2^53`. -/
theorem f64round_ge (n : Nat) (hn : 2 ^ 53 ≤ n) : 2 ^ 53 ≤ f64round n := by
  unfold f64round
  rw [if_neg (not_lt.mpr hn)]
  have hn0 : n ≠ 0 := by
    intro hc
    rw [hc] at hn
    exact absurd hn (by norm_num)
  have hk : 53 ≤ n.log2 := (Nat.le_log2 hn0).mpr hn
  have h2k : 2 ^ n.log2 ≤ n := Nat.log2_self_le hn0
  have hek : n.log2 - 52 ≤ n.log2 := Nat.sub_le _ _
  have hpow : 2 ^ (n.log2 - (n.log2 - 52)) * 2 ^ (n.log2 - 52) = 2 ^ n.log2 := by
    rw [← pow_add]
    congr 1
    omega
  have hq : 2 ^ (n.log2 - (n.log2 - 52)) ≤ n / 2 ^ (n.log2 - 52) := by
    rw [Nat.le_div_iff_mul_le (pow_pos (by norm_num) _)]
    rw [hpow]
    exact h2k
  have hbase : 2 ^ 53 ≤ (n / 2 ^ (n.log2 - 52)) * 2 ^ (n.log2 - 52) := by
    calc 2 ^ 53 ≤ 2 ^ n.log2 := Nat.pow_le_pow_right (by norm_num) hk
    _ = 2 ^ (n.log2 - (n.log2 - 52)) * 2 ^ (n.log2 - 52) := hpow.symm
    _ ≤ (n / 2 ^ (n.log2 - 52)) * 2 ^ (n.log2 - 52) := Nat.mul_le_mul_right _ hq
  have hsucc : 2 ^ 53 ≤ (n / 2 ^ (n.log2 - 52) + 1) * 2 ^ (n.log2 - 52) :=
    le_trans hbase (Nat.mul_le_mul_right _ (Nat.le_succ _))
  split
  · exact hbase
  · split
    · exact hsucc
    · split
      · exact hbase
      · exact hsucc

/-- C3 counterexample: with total count 0 the 416 fault carries
`Content-Range: */*` (the `Total == 0` branch of `ContentRange.String`), not
`*/0` as the claim's `*/N` form demands. -/
theorem Range_adjust_c3_cex :
    exceptOk ((Range.mk "bytes" 1 5).adjust 0) = false ∧
    (match (Range.mk "bytes" 1 5).adjust 0 with
     | .error e => e.code
     | .ok _ => 0) = 416 ∧
    (match (Range.mk "bytes" 1 5).adjust 0 with
     | .error e => hGet e.header "Content-Range"
     | .ok _ => "") = "*/*" ∧
    ("*/*" : String) ≠ "*/" ++ toString (0 : Nat) := by
  refine ⟨rfl, rfl, rfl, by decide⟩

/-- C3 (amended): for a Ranger-capable resource with total count `N ≥ 1`
(within the float64-exact regime `N ≤ 2^53`), `adjust` fails with a 416
fault carrying `Content-Range: */N` exactly when `From > N`, and otherwise
succeeds with `To` clamped to `min To (N-1)` and `From` unchanged; when
`N = 0` the fault carries `*/*` instead (see the counterexample). -/
theorem Range_adjust_c3_amended (r : Range) (N : Nat) (h1 : 1 ≤ N)
    (h2 : N ≤ 2 ^ 53) (h3 : r.To < 2 ^ 64) :
    (N < r.From →
      r.adjust N = .error (RequestedRangeNotSatisfiable ⟨none, N⟩) ∧
      (RequestedRangeNotSatisfiable ⟨none, N⟩).code = 416 ∧
      hGet (RequestedRangeNotSatisfiable ⟨none, N⟩).header "Content-Range"
        = "*/" ++ toString N) ∧
    (r.From ≤ N → r.adjust N = .ok ⟨r.unit, r.From, min r.To (N - 1)⟩) := by
  constructor
  · intro hgt
    refine ⟨by unfold Range.adjust; rw [if_pos hgt], rfl, ?_⟩
    show hGet (addVary (hSet [] "Content-Range" (ContentRange.toStr ⟨none, N⟩))
      "Range") "Content-Range" = _
    rw [hGet_addVary_ne _ _ _ (by decide), hGet_hSet_same]
    unfold ContentRange.toStr
    have hne : ¬ ((⟨none, N⟩ : ContentRange).Total = 0) := by
      show ¬ N = 0
      omega
    rw [if_neg hne]
  · intro hle
    unfold Range.adjust
    rw [if_neg (not_lt.mpr hle)]
    have hmod : (N + (U64MOD - 1)) % U64MOD = N - 1 := by
      unfold U64MOD
      omega
    have hN1 : N - 1 < 2 ^ 53 := by omega
    have hf1 : f64round (N - 1) = N - 1 := by
      unfold f64round
      rw [if_pos hN1]
    rw [hmod, hf1]
    by_cases hto : r.To < 2 ^ 53
    · have hfTo : f64round r.To = r.To := by
        unfold f64round
        rw [if_pos hto]
      rw [hfTo]
      have : goFloatToUint64 (min r.To (N - 1)) = min r.To (N - 1) := by
        unfold goFloatToUint64 U64MOD
        rw [if_pos (by omega)]
      rw [this]
    · have hge : 2 ^ 53 ≤ f64round r.To := f64round_ge r.To (le_of_not_lt hto)
      have hmin1 : min (f64round r.To) (N - 1) = N - 1 :=
        min_eq_right (by omega)
      have hmin2 : min r.To (N - 1) = N - 1 :=
        min_eq_right (by omega)
      rw [hmin1, hmin2]
      have : goFloatToUint64 (N - 1) = N - 1 := by
        unfold goFloatToUint64 U64MOD
        rw [if_pos (by omega)]
      rw [this]

theorem Range_adjust_c3_amended_witness :
    ((1 : Nat) ≤ 5 ∧ (5 : Nat) ≤ 2 ^ 53 ∧ (10 : Nat) < 2 ^ 64) ∧
    Range.adjust ⟨"items", 2, 10⟩ 5 = .ok ⟨"items", 2, 4⟩ := by
  have h := (Range_adjust_c3_amended ⟨"items", 2, 10⟩ 5 (by norm_num)
    (by norm_num) (by norm_num)).2 (by norm_num)
  exact ⟨⟨by norm_num, by norm_num, by norm_num⟩, by rw [h]; decide⟩
/-- C4 (amended): `ParseRange` succeeds exactly when the raw value matches
the grammar `<unit>=<from>-[<to>]` and, when both bounds are present,
`from ≤ to` AFTER each bound saturates at `2^64 - 1` (the ignored-error
value of `strconv.ParseUint` on overflow); an omitted `to` yields the
unbounded sentinel `2^64 - 1`. -/
theorem ParseRange_c4_amended (raw : String) :
    (exceptOk (ParseRange raw) = true ↔
      ∃ u f t, rangeDecomp raw u f t ∧
        (t ≠ [] → goParseUint64 f ≤ goParseUint64 t)) ∧
    (∀ u f, rangeDecomp raw u f [] →
      ParseRange raw = .ok ⟨⟨u⟩, goParseUint64 f, U64MOD - 1⟩) := by
  rcases hm : matchRangeReL raw.data with _ | ⟨u0, f0, _ | t⟩
  · have hPR : ParseRange raw = .error "malformed Range header value" := by
      unfold ParseRange
      rw [hm]
    constructor
    · constructor
      · intro h
        rw [hPR] at h
        simp [exceptOk] at h
      · rintro ⟨u, f, t, hd, -⟩
        have hx := matchRangeReL_of_decomp raw u f t hd
        rw [hm] at hx
        exact absurd hx (by simp)
    · intro u f hd
      have hx := matchRangeReL_of_decomp raw u f [] hd
      rw [hm] at hx
      exact absurd hx (by simp)
  · have hPR : ParseRange raw = .ok ⟨⟨u0⟩, goParseUint64 f0, U64MOD - 1⟩ := by
      unfold ParseRange
      rw [hm]
    obtain ⟨hd, -⟩ := decomp_of_matchRangeReL raw.data u0 f0 none hm
    constructor
    · apply iff_of_true
      · rw [hPR]
        rfl
      · exact ⟨u0, f0, [], hd, fun hc => absurd rfl hc⟩
    · intro u f hdu
      have hx := matchRangeReL_of_decomp raw u f [] hdu
      have hcomb := hm.symm.trans hx
      simp only [List.isEmpty_nil, if_true, Option.some.injEq, Prod.mk.injEq] at hcomb
      obtain ⟨rfl, rfl, -⟩ := hcomb
      exact hPR
  · have hPR : ParseRange raw =
        (if goParseUint64 f0 > goParseUint64 t then
          Except.error "invalid Range header value"
        else .ok ⟨⟨u0⟩, goParseUint64 f0, goParseUint64 t⟩) := by
      unfold ParseRange
      rw [hm]
    obtain ⟨hd, hne⟩ := decomp_of_matchRangeReL raw.data u0 f0 (some t) hm
    have htne : t ≠ [] := fun hc => hne (by rw [hc])
    constructor
    · by_cases hcmp : goParseUint64 f0 > goParseUint64 t
      · apply iff_of_false
        · rw [hPR, if_pos hcmp]
          simp [exceptOk]
        · rintro ⟨u, f, t', hdu, hc⟩
          have hx := matchRangeReL_of_decomp raw u f t' hdu
          have hcomb := hm.symm.trans hx
          by_cases hte : t'.isEmpty = true
          · rw [if_pos hte] at hcomb
            simp at hcomb
          · rw [if_neg hte] at hcomb
            simp only [Option.some.injEq, Prod.mk.injEq] at hcomb
            obtain ⟨rfl, rfl, rfl⟩ := hcomb
            exact absurd (hc htne) (not_le.mpr hcmp)
      · apply iff_of_true
        · rw [hPR, if_neg hcmp]
          rfl
        · exact ⟨u0, f0, t, hd, fun _ => le_of_not_lt hcmp⟩
    · intro u f hdu
      have hx := matchRangeReL_of_decomp raw u f [] hdu
      have hcomb := hm.symm.trans hx
      simp at hcomb

/-- Decomposition of `items=39-` used by the closed instance. -/
theorem ParseRange_c4_amended_witness :
    ParseRange "items=39-" = .ok ⟨"items", 39, U64MOD - 1⟩ := by
  have hdecomp : rangeDecomp "items=39-" "items".data "39".data [] :=
    ⟨by decide, by decide, by decide, by decide, by decide, Or.inl rfl⟩
  rw [(ParseRange_c4_amended "items=39-").2 "items".data "39".data hdecomp]
  decide

/-- C4 counterexample: `b=18446744073709551617-18446744073709551616` has
`from = 2^64 + 1 > to = 2^64` as written, so the claim demands a parse
error, yet `ParseRange` succeeds because both bounds saturate to
`2^64 - 1` before the `from ≤ to` check. -/
theorem ParseRange_c4_cex :
    exceptOk (ParseRange "b=18446744073709551617-18446744073709551616") = true ∧
    ¬ (∃ u f t,
        rangeDecomp "b=18446744073709551617-18446744073709551616" u f t ∧
        (t ≠ [] → digitsVal f ≤ digitsVal t)) := by
  constructor
  · decide
  · rintro ⟨u, f, t, hd, hc⟩
    have hs := matchRangeReL_of_decomp _ u f t hd
    have hconc : matchRangeReL ("b=18446744073709551617-18446744073709551616").data
        = some ("b".data, "18446744073709551617".data,
            some ("18446744073709551616".data)) := by decide
    have hcomb := hconc.symm.trans hs
    by_cases hte : t.isEmpty = true
    · rw [if_pos hte] at hcomb
      simp at hcomb
    · rw [if_neg hte] at hcomb
      simp only [Option.some.injEq, Prod.mk.injEq] at hcomb
      obtain ⟨-, hf, ht⟩ := hcomb
      have htne : t ≠ [] := by
        intro hcn
        rw [hcn] at hte
        simp at hte
      have hle := hc htne
      rw [← hf, ← ht] at hle
      exact absurd hle (by decide)
/-! ### The method dispatcher (handlers.go lines 893–963)

An `Endpoint` is duck-typed in Go; `EndpointM` records which of the
capability interfaces (`Getter`, `Patcher`, `Putter`, `Poster`, `Deleter`)
the concrete type implements, plus the package-private `methodLister`
override when implemented (`none` otherwise).  The only `methodLister`
implementation in the repository is `mapEndpoint`. -/

structure EndpointM where
  hasGet : Bool
  hasPatch : Bool
  hasPut : Bool
  hasPost : Bool
  hasDelete : Bool
  lister : Option (List String)
deriving DecidableEq

/-- Which method handler `getMethodHandler` selects. -/
inductive MethodHandlerK where
  | optionsH
  | getH
  | patchH
  | putH
  | postH
  | deleteH
deriving DecidableEq

/-- `getMethodHandler` (handlers.go lines 915–941); the `header` argument
of the Go function is unused. -/
def getMethodHandler (e : EndpointM) (method : String) : Option MethodHandlerK :=
  match asciiUpper method with
  | "OPTIONS" => some .optionsH
  | "HEAD" => if e.hasGet then some .getH else none
  | "GET" => if e.hasGet then some .getH else none
  | "PATCH" => if e.hasPatch then some .patchH else none
  | "PUT" => if e.hasPut then some .putH else none
  | "POST" => if e.hasPost then some .postH else none
  | "DELETE" => if e.hasDelete then some .deleteH else none
  | _ => none

/-- `supportedMethods` (handlers.go line 943). -/
def supportedMethods : List String :=
  ["HEAD", "GET", "PATCH", "PUT", "POST", "DELETE"]

/-- `AllowedMethods` (handlers.go lines 952–963): a `methodLister`
endpoint reports its own list; otherwise the fixed ordered set is probed
through `getMethodHandler`. -/
def AllowedMethods (e : EndpointM) : List String :=
  match e.lister with
  | some l => l
  | none => supportedMethods.filter (fun m => (getMethodHandler e m).isSome)

/-- What `endpointHandler.ServeHTTP` dispatches to. -/
inductive Dispatch where
  | toHandler (k : MethodHandlerK)
  | toError (e : Error)
deriving DecidableEq

/-- `endpointHandler.ServeHTTP` (handlers.go lines 901–911). -/
def endpointServe (e : EndpointM) (method : String) : Dispatch :=
  match getMethodHandler e method with
  | some k => .toHandler k
  | none =>
      if (AllowedMethods e).length > 0 then
        .toError (MethodNotAllowed method (AllowedMethods e))
      else .toError NotFound

/-! ### `Mux` method registration and `mapEndpoint` (rst.go / mux)

`Mux.endpoints` maps a pattern to a `mapEndpoint`, which is a Go map from
method name to the registered handler.  Handlers are abstracted as `Nat`
tags.  A Go map iterates in unspecified order; the association list below
fixes insertion order, which coincides with Go's behaviour whenever the
map has at most one entry — every theorem below stays in that case. -/

abbrev MethodMap := List (String × Nat)

def mapLookup (m : MethodMap) (k : String) : Option Nat :=
  (m.find? (fun p => p.1 == k)).map (fun p => p.2)

def mapSet (m : MethodMap) (k : String) (v : Nat) : MethodMap :=
  if m.any (fun p => p.1 == k) then
    m.map (fun p => if p.1 == k then (p.1, v) else p)
  else m ++ [(k, v)]

/-- `mapEndpoint.allowedMethods` (part_001 lines 448–457): the map's keys
(in the list's order; Go iterates them in unspecified order) plus `HEAD`
appended when `GET` is registered. -/
def mapAllowedMethods (keys : List String) : List String :=
  keys ++ (if keys.contains "GET" then ["HEAD"] else [])

/-- The `EndpointM` view of a `mapEndpoint` with the given keys: it
implements every capability interface and the `methodLister` override. -/
def mapEndpointM (keys : List String) : EndpointM :=
  ⟨true, true, true, true, true, some (mapAllowedMethods keys)⟩

/-- `mapEndpoint.validateMethod` (part_001 lines 461–466). -/
def mapValidateMethod (m : MethodMap) (method : String) : Option Error :=
  if (mapLookup m method).isSome then none
  else some (MethodNotAllowed method (mapAllowedMethods (m.map (fun p => p.1))))

/-- `mapEndpoint.Get` (part_001 lines 469–475); `run` stands for the
registered `GetFunc`, returning a resource tag or an error. -/
def mapGetOp (m : MethodMap) (method : String)
    (run : Nat → Except Error Nat) : Except Error Nat :=
  match mapValidateMethod m method with
  | some e => .error e
  | none => run ((mapLookup m method).getD 0)

/-- `mapEndpoint.Post` (part_001 lines 478–484). -/
def mapPostOp (m : MethodMap) (method : String)
    (run : Nat → Except Error (Nat × String)) : Except Error (Nat × String) :=
  match mapValidateMethod m method with
  | some e => .error e
  | none => run ((mapLookup m method).getD 0)

/-- `mapEndpoint.Put` (part_001 lines 487–493). -/
def mapPutOp (m : MethodMap) (method : String)
    (run : Nat → Except Error Nat) : Except Error Nat :=
  match mapValidateMethod m method with
  | some e => .error e
  | none => run ((mapLookup m method).getD 0)

/-- `mapEndpoint.Patch` (part_001 lines 496–502). -/
def mapPatchOp (m : MethodMap) (method : String)
    (run : Nat → Except Error Nat) : Except Error Nat :=
  match mapValidateMethod m method with
  | some e => .error e
  | none => run ((mapLookup m method).getD 0)

/-- `mapEndpoint.Delete` (part_001 lines 505–511).  NOTE: the source reads
`if err := e.validateMethod(r); err != nil { return nil }` — the
Method-Not-Allowed error produced by `validateMethod` is dropped and the
operation reports success. -/
def mapDeleteOp (m : MethodMap) (method : String)
    (run : Nat → Option Error) : Option Error :=
  match mapValidateMethod m method with
  | some _ => none
  | none => run ((mapLookup m method).getD 0)

/-- `Mux` registration state: pattern → method map. -/
structure MuxM where
  endpoints : List (String × MethodMap)
deriving DecidableEq

/-- `NewMux` (part_001 lines 315–323), restricted to the endpoints map. -/
def NewMux : MuxM := ⟨[]⟩

/-- `Mux.handleMethod` (part_001 lines 401–407). -/
def handleMethod (s : MuxM) (pattern method : String) (h : Nat) : MuxM :=
  if s.endpoints.any (fun p => p.1 == pattern) then
    ⟨s.endpoints.map (fun p =>
      if p.1 == pattern then (p.1, mapSet p.2 method h) else p)⟩
  else ⟨s.endpoints ++ [(pattern, mapSet [] method h)]⟩

/-- `Mux.Get` (part_001 lines 410–412). -/
def muxGet (s : MuxM) (pattern : String) (h : Nat) : MuxM :=
  handleMethod s pattern "GET" h

/-- `Mux.Post` (part_001 lines 415–417). -/
def muxPost (s : MuxM) (pattern : String) (h : Nat) : MuxM :=
  handleMethod s pattern "POST" h

/-- `Mux.Put` (part_001 lines 420–422). -/
def muxPut (s : MuxM) (pattern : String) (h : Nat) : MuxM :=
  handleMethod s pattern "PUT" h

/-- `Mux.Patch` (part_001 lines 425–427).  The source passes the `Put`
constant: `s.handleMethod(pattern, Put, handler)`. -/
def muxPatch (s : MuxM) (pattern : String) (h : Nat) : MuxM :=
  handleMethod s pattern "PUT" h

/-- `Mux.Delete` (part_001 lines 430–432). -/
def muxDelete (s : MuxM) (pattern : String) (h : Nat) : MuxM :=
  handleMethod s pattern "DELETE" h

/-- The method map registered for a pattern. -/
def muxMethods (s : MuxM) (pattern : String) : MethodMap :=
  ((s.endpoints.find? (fun p => p.1 == pattern)).map (fun p => p.2)).getD []
/-- C6 counterexample: a mux-registered endpoint with only a GET handler is
a `mapEndpoint`; for an unknown method (`TRACE`) the dispatcher's 405
carries `Allow: GET, HEAD` from `mapEndpoint.allowedMethods`, while probing
the fixed ordered set (the claim's derivation) yields all six methods,
since `mapEndpoint` implements every capability interface. -/
theorem endpointServe_c6_cex :
    endpointServe (mapEndpointM ["GET"]) "TRACE"
      = .toError (MethodNotAllowed "TRACE" ["GET", "HEAD"]) ∧
    hGet (MethodNotAllowed "TRACE" ["GET", "HEAD"]).header "Allow" = "GET, HEAD" ∧
    supportedMethods.filter
      (fun m => (getMethodHandler (mapEndpointM ["GET"]) m).isSome)
      = supportedMethods ∧
    joinSep ", " supportedMethods ≠ "GET, HEAD" := by
  decide

/-- C6 (amended): when a request's method has no handler per
`getMethodHandler`, the dispatcher responds 405 with an `Allow` header
listing `AllowedMethods` when that list is non-empty and 404 when the
endpoint supports no methods; for endpoints without the `methodLister`
override the list is derived by probing the fixed ordered set Head, Get,
Patch, Put, Post, Delete (Head present exactly when Get is), while a
`methodLister` endpoint — the mux `mapEndpoint` — reports its registered
method keys with Head appended when Get is registered. -/
theorem endpointServe_c6_amended (e : EndpointM) (method : String)
    (hmiss : getMethodHandler e method = none) :
    (AllowedMethods e ≠ [] →
      endpointServe e method
        = .toError (MethodNotAllowed method (AllowedMethods e)) ∧
      (MethodNotAllowed method (AllowedMethods e)).code = 405 ∧
      hGet (MethodNotAllowed method (AllowedMethods e)).header "Allow"
        = joinSep ", " (AllowedMethods e)) ∧
    (AllowedMethods e = [] →
      endpointServe e method = .toError NotFound ∧ NotFound.code = 404) ∧
    (e.lister = none →
      AllowedMethods e
        = supportedMethods.filter (fun m => (getMethodHandler e m).isSome) ∧
      ("HEAD" ∈ AllowedMethods e ↔ "GET" ∈ AllowedMethods e)) ∧
    (∀ keys, e = mapEndpointM keys →
      AllowedMethods e = mapAllowedMethods keys ∧
      ("GET" ∈ keys → "HEAD" ∈ AllowedMethods e)) := by
  refine ⟨?_, ?_, ?_, ?_⟩
  · intro hne
    refine ⟨?_, rfl, ?_⟩
    · unfold endpointServe
      rw [hmiss]
      rw [if_pos (List.length_pos.mpr hne)]
    · show hGet (hSet [] "Allow" (joinSep ", " (AllowedMethods e))) "Allow" = _
      rw [hGet_hSet_same]
  · intro h0
    refine ⟨?_, rfl⟩
    unfold endpointServe
    rw [hmiss]
    rw [if_neg (by simp [h0])]
  · intro hl
    obtain ⟨g, pa, pu, po, de, li⟩ := e
    simp only [] at hl
    subst hl
    cases g <;> cases pa <;> cases pu <;> cases po <;> cases de <;>
      exact ⟨by decide, by decide⟩
  · intro keys hk
    subst hk
    refine ⟨rfl, ?_⟩
    intro hg
    show "HEAD" ∈ mapAllowedMethods keys
    unfold mapAllowedMethods
    have hcont : keys.contains "GET" = true := by
      simpa using hg
    rw [if_pos hcont]
    simp

theorem endpointServe_c6_amended_witness :
    endpointServe ⟨true, false, false, false, false, none⟩ "DELETE"
      = .toError (MethodNotAllowed "DELETE" ["HEAD", "GET"]) := by
  have h := (endpointServe_c6_amended ⟨true, false, false, false, false, none⟩
    "DELETE" (by decide)).1 (by decide)
  have ha : AllowedMethods ⟨true, false, false, false, false, none⟩
      = ["HEAD", "GET"] := by decide
  rw [h.1, ha]

/-- C9: `Mux.Patch` passes the `Put` constant to `handleMethod`, so the
handler lands under the `PUT` key: a PATCH request then misses the map and
`mapEndpoint.Patch` surfaces 405 Method Not Allowed instead of invoking
the registered handler. -/
theorem muxPatch_c9_bug :
    mapLookup (muxMethods (muxPatch NewMux "/x" 7) "/x") "PATCH" = none ∧
    mapLookup (muxMethods (muxPatch NewMux "/x" 7) "/x") "PUT" = some 7 ∧
    mapPatchOp (muxMethods (muxPatch NewMux "/x" 7) "/x") "PATCH"
      (fun h => .ok h)
      = .error (MethodNotAllowed "PATCH" ["PUT"]) := by
  decide

/-- C10: on a map with only a GET handler, the Get/Post/Put/Patch
operations all surface the 405 fault built by `validateMethod` for their
missing methods, but `mapEndpoint.Delete` discards that same fault
(`return nil`) and reports success. -/
theorem mapDelete_c10_bug :
    mapValidateMethod [("GET", 0)] "DELETE"
      = some (MethodNotAllowed "DELETE" ["GET", "HEAD"]) ∧
    (MethodNotAllowed "DELETE" ["GET", "HEAD"]).code = 405 ∧
    mapDeleteOp [("GET", 0)] "DELETE" (fun _ => some (NewError 500 "x" "y"))
      = none ∧
    mapGetOp [("GET", 0)] "POST" (fun h => .ok h)
      = .error (MethodNotAllowed "POST" ["GET", "HEAD"]) ∧
    mapPostOp [("GET", 0)] "POST" (fun h => .ok (h, ""))
      = .error (MethodNotAllowed "POST" ["GET", "HEAD"]) ∧
    mapPutOp [("GET", 0)] "PUT" (fun h => .ok h)
      = .error (MethodNotAllowed "PUT" ["GET", "HEAD"]) ∧
    mapPatchOp [("GET", 0)] "PATCH" (fun h => .ok h)
      = .error (MethodNotAllowed "PATCH" ["GET", "HEAD"]) := by
  decide
/-! ### The content negotiator (headers.go lines 31–138)

`AcceptClause.Q` is a Go `float64` produced by `strconv.ParseFloat(s, 32)`.
It is modelled as an exact decimal fraction `Fl` (integer numerator and
power-of-ten denominator): on decimal literals that are exactly
representable in `float32` — such as the `0.5`/`0.25`/`1` used in every
theorem below — Go's parse is exact and float comparison coincides with
exact fraction comparison by cross-multiplication. -/

/-- An exactly-represented quality value. -/
structure Fl where
  num : Int
  den : Nat
deriving DecidableEq

/-- Strict `>` on quality values (cross-multiplication; denominators are
positive powers of ten). -/
def Fl.gt (a b : Fl) : Bool :=
  a.num * Int.ofNat b.den > b.num * Int.ofNat a.den

/-- `strconv.ParseFloat(s, 32)` with the error ignored (`ParseAccept`
discards it, leaving `0` on a malformed value), for plain decimal forms
`digits` or `digits.digits`. -/
def parseFloatQ (s : String) : Fl :=
  match splitOnChar '.' s.data with
  | [i] =>
      if i ≠ [] ∧ i.all Char.isDigit then ⟨Int.ofNat (digitsVal i), 1⟩
      else ⟨0, 1⟩
  | [i, fr] =>
      if i ≠ [] ∧ i.all Char.isDigit ∧ fr ≠ [] ∧ fr.all Char.isDigit then
        ⟨Int.ofNat (digitsVal i * 10 ^ fr.length + digitsVal fr), 10 ^ fr.length⟩
      else ⟨0, 1⟩
  | _ => ⟨0, 1⟩

/-- `rst.AcceptClause` (headers.go lines 32–36). -/
structure AcceptClause where
  type : String
  subtype : String
  q : Fl
  params : List (String × String)
deriving DecidableEq

/-- `Accept.Less` (headers.go lines 45–57): quality first, then the two
wildcard checks — each applied without re-testing the earlier conditions. -/
def acceptLess (ai aj : AcceptClause) : Bool :=
  if Fl.gt ai.q aj.q then true
  else if ai.type ≠ "*" ∧ aj.type = "*" then true
  else if ai.subtype ≠ "*" ∧ aj.subtype = "*" then true
  else false

/-- One step of Go's insertion sort: insert `x` into the (reversed)
already-sorted prefix, swapping left while `Less(x, previous)`. -/
def goInsertR {α : Type} (lt : α → α → Bool) (x : α) : List α → List α
  | [] => [x]
  | y :: ys => if lt x y then y :: goInsertR lt x ys else x :: y :: ys

def goSortAux {α : Type} (lt : α → α → Bool) : List α → List α → List α
  | revAcc, [] => revAcc.reverse
  | revAcc, x :: rest => goSortAux lt (goInsertR lt x revAcc) rest

/-- `sort.Sort` as run on an `Accept` slice: Go performs plain insertion
sort for the short slices involved here (fewer than 8 entries in every Go
version's cutoff), which the theorems below stay within. -/
def goSort {α : Type} (lt : α → α → Bool) (l : List α) : List α :=
  goSortAux lt [] l

/-- Parameter-map update (`a.Params[token] = value`): Go map overwrite. -/
def paramsUpsert (ps : List (String × String)) (k v : String) :
    List (String × String) :=
  if ps.any (fun p => p.1 == k) then
    ps.map (fun p => if p.1 == k then (k, v) else p)
  else ps ++ [(k, v)]

/-- The per-part body of `ParseAccept`'s loop (headers.go lines 68–107):
`none` models `continue` (the clause is skipped). -/
def parseClause (rawPart : String) : Option AcceptClause :=
  let part := trimSpaces rawPart
  let mrp := goSplit ';' part
  let mediaRange := mrp.headD ""
  let sp := goSplit '/' mediaRange
  let ty := trimSpaces (sp.headD "")
  let sub? : Option String :=
    if sp.length = 1 ∧ ty = "*" then some "*"
    else if sp.length = 2 then some (trimSpaces (sp.getD 1 ""))
    else none
  match sub? with
  | none => none
  | some sub =>
      let init : Fl × List (String × String) := (⟨1, 1⟩, [])
      let qp := (mrp.drop 1).foldl (fun acc param =>
        match splitN2eq param with
        | [tok, v] =>
            let token := trimSpaces tok
            if token = "q" then (parseFloatQ v, acc.2)
            else (acc.1, paramsUpsert acc.2 token (trimSpaces v))
        | _ => acc) init
      some ⟨ty, sub, qp.1, qp.2⟩

/-- `ParseAccept` (headers.go lines 65–112). -/
def ParseAccept (header : String) : List AcceptClause :=
  goSort acceptLess ((goSplit ',' header).filterMap parseClause)

/-- `Accept.Negotiate` (headers.go lines 116–138): first clause (in sorted
order) matching an alternative exactly, by type with wildcard subtype, or
by full wildcard.  Alternatives are pre-split at the first `/` (every
alternative the library passes contains one). -/
def Negotiate (accept : List AcceptClause) (alternatives : List String) : String :=
  let asp := alternatives.map (fun c =>
    (c, (goSplit '/' c).headD "", joinSep "/" ((goSplit '/' c).drop 1)))
  go accept asp
where
  go : List AcceptClause → List (String × String × String) → String
    | [], _ => ""
    | clause :: rest, asp =>
        match asp.find? (fun alt =>
          (clause.type == alt.2.1 && clause.subtype == alt.2.2) ||
          (clause.type == alt.2.1 && clause.subtype == "*") ||
          (clause.type == "*" && clause.subtype == "*")) with
        | some alt => alt.1
        | none => go rest asp
/-- C5 counterexample: for `*/*;q=0.5,text/plain;q=0.25` the comparator's
wildcard test fires without regard to quality (`Less` never requires the
qualities to be equal), so the parsed list places the quality-0.25 concrete
clause ahead of the quality-0.5 wildcard clause — the returned list is not
sorted with higher-quality clauses first. -/
theorem ParseAccept_c5_cex :
    ParseAccept "*/*;q=0.5,text/plain;q=0.25"
      = [⟨"text", "plain", ⟨25, 100⟩, []⟩, ⟨"*", "*", ⟨5, 10⟩, []⟩] ∧
    Fl.gt (⟨5, 10⟩ : Fl) ⟨25, 100⟩ = true := by
  decide

/-- Both two-element orders sort to `[a, b]` when the comparator prefers
`a` and not `b`. -/
theorem goSort_pair {α : Type} (lt : α → α → Bool) (a b : α)
    (hab : lt a b = true) (hba : lt b a = false) :
    goSort lt [a, b] = [a, b] ∧ goSort lt [b, a] = [a, b] := by
  constructor
  · show goSortAux lt [] [a, b] = [a, b]
    simp [goSortAux, goInsertR, hba]
  · show goSortAux lt [] [b, a] = [a, b]
    simp [goSortAux, goInsertR, hab]

/-- C5 (amended): the comparator orders by quality and wildcard-position
independently, so the sorted-by-quality guarantee fails in general (see
the counterexample); what holds is the equal-quality tie rule: among two
clauses of equal quality where `a` is concrete against `b`'s wildcard
(`a`'s type concrete and `b`'s type `*` without a crossed subtype
wildcard, or equal types with `a`'s subtype concrete and `b`'s `*`), the
sort places `a` before `b` from either input order, and `Negotiate` is
invariant under that permutation. -/
theorem ParseAccept_c5_amended (a b : AcceptClause)
    (hq : Fl.gt a.q b.q = false ∧ Fl.gt b.q a.q = false)
    (hw : (a.type ≠ "*" ∧ b.type = "*" ∧ (a.subtype ≠ "*" ∨ b.subtype = "*"))
        ∨ (a.type = b.type ∧ a.subtype ≠ "*" ∧ b.subtype = "*")) :
    goSort acceptLess [a, b] = [a, b] ∧
    goSort acceptLess [b, a] = [a, b] ∧
    (∀ alts, Negotiate (goSort acceptLess [a, b]) alts
        = Negotiate (goSort acceptLess [b, a]) alts) := by
  have hab : acceptLess a b = true := by
    unfold acceptLess
    rw [hq.1]
    simp only [Bool.false_eq_true, if_false]
    rcases hw with ⟨h1, h2, -⟩ | ⟨h1, h2, h3⟩
    · rw [if_pos ⟨h1, h2⟩]
    · rw [if_neg (fun hc => hc.1 (h1.trans hc.2)), if_pos ⟨h2, h3⟩]
  have hba : acceptLess b a = false := by
    unfold acceptLess
    rw [hq.2]
    simp only [Bool.false_eq_true, if_false]
    rcases hw with ⟨h1, h2, h3⟩ | ⟨h1, h2, h3⟩
    · rw [if_neg (fun hc => hc.1 h2)]
      rcases h3 with h3 | h3
      · rw [if_neg (fun hc => h3 hc.2)]
      · rw [if_neg (fun hc => hc.1 h3)]
    · rw [if_neg (fun hc => hc.1 (h1.symm.trans hc.2)),
        if_neg (fun hc => hc.1 h3)]
  obtain ⟨hs1, hs2⟩ := goSort_pair acceptLess a b hab hba
  exact ⟨hs1, hs2, fun alts => by rw [hs1, hs2]⟩

theorem ParseAccept_c5_amended_witness :
    goSort acceptLess
      [⟨"text", "*", ⟨1, 1⟩, []⟩, ⟨"text", "plain", ⟨1, 1⟩, []⟩]
      = [⟨"text", "plain", ⟨1, 1⟩, []⟩, ⟨"text", "*", ⟨1, 1⟩, []⟩] :=
  (ParseAccept_c5_amended ⟨"text", "plain", ⟨1, 1⟩, []⟩
    ⟨"text", "*", ⟨1, 1⟩, []⟩ (by decide) (Or.inr (by decide))).2.1
/-! ### The CORS policy engine (cors.go) -/

/-- `rst.AccessControlRequest` (cors.go lines 62–66). -/
structure ACRequest where
  origin : String
  method : String
  headers : List String
deriving DecidableEq

/-- `rst.AccessControlResponse` (cors.go lines 90–97): for the two list
fields, `none` models Go `nil` (deny/omit) and `some []` models the empty
non-nil slice (allow any).  `maxAgeSeconds` carries `int(MaxAge.Seconds())`
as the response writes it. -/
structure AccessControlResponse where
  origin : String
  exposedHeaders : List String
  methods : Option (List String)
  allowedHeaders : Option (List String)
  credentials : Bool
  maxAgeSeconds : Int
deriving DecidableEq

/-- The request fields `accessControlHandler.ServeHTTP` reads:
`hasOriginKey` is the presence of the `Origin` header key (the handler
checks `_, exists := r.Header["Origin"]`), the strings are `Header.Get`
values (`""` when absent). -/
structure CorsRequest where
  method : String
  hasOriginKey : Bool
  origin : String
  acrMethod : String
  acrHeadersRaw : String
deriving DecidableEq

/-- `ParseAccessControlRequest` (cors.go lines 74–86). -/
def ParseAccessControlRequest (r : CorsRequest) : ACRequest :=
  { origin := r.origin
    method := r.acrMethod
    headers :=
      if r.acrHeadersRaw ≠ "" then
        goSplit ',' ⟨r.acrHeadersRaw.data.filter (fun c => c ≠ ' ')⟩
      else [] }

/-- `http.CanonicalHeaderKey` for valid header tokens: upper-case the
first letter and each letter after a hyphen, lower-case the rest.  (Go
returns invalid-token strings unchanged; every value passed in this
development is a valid token.) -/
def canonAux : Bool → List Char → List Char
  | _, [] => []
  | up, c :: cs =>
      (if up then asciiUpperChar c else asciiLowerChar c) :: canonAux (c = '-') cs

def canonicalHeaderKey (s : String) : String :=
  ⟨canonAux true s.data⟩

/-- `normalizeHeaderArray` (cors.go lines 10–15). -/
def normalizeHeaderArray (hs : List String) : List String :=
  hs.map canonicalHeaderKey

/-- An endpoint as the CORS handler sees it: its capability record and the
optional `Preflighter` implementation (the preflight callback is modelled
as a function of the parsed `AccessControlRequest`). -/
structure CorsEndpointM where
  em : EndpointM
  preflight : Option (ACRequest → AccessControlResponse)

/-- `AllowedMethods(h.endpoint)` where the handler's endpoint interface
may be nil: every capability assertion on a nil interface fails, so the
probe yields the empty list. -/
def corsAllowedMethods (ep : Option CorsEndpointM) : List String :=
  match ep with
  | none => []
  | some e => AllowedMethods e.em

/-- The policy resolution of `accessControlHandler.ServeHTTP` (cors.go
lines 118–128): the endpoint's `Preflight` is consulted only for an
OPTIONS request on a non-nil endpoint implementing `Preflighter`. -/
def resolveCorsPolicy (ep : Option CorsEndpointM) (pol : AccessControlResponse)
    (req : ACRequest) (method : String) : AccessControlResponse :=
  match ep with
  | none => pol
  | some e =>
      match e.preflight with
      | some f => if asciiUpper method = "OPTIONS" then f req else pol
      | none => pol

/-- The headers written for every CORS request (cors.go lines 137–146). -/
def corsSimpleHeaders (resp : AccessControlResponse) (h0 : Header) : Header :=
  let h1 := if resp.origin ≠ "" then
      hSet h0 "Access-Control-Allow-Origin" resp.origin
    else h0
  let h2 := hSet h1 "Access-Control-Allow-Credentials"
    (if resp.credentials then "true" else "false")
  if resp.exposedHeaders.length > 0 then
    hSet h2 "Access-Control-Expose-Headers"
      (joinSep ", " (normalizeHeaderArray resp.exposedHeaders))
  else h2

/-- The method list joined into `Access-Control-Allow-Methods`. -/
def corsMethodsValue (ep : Option CorsEndpointM)
    (resp : AccessControlResponse) : List String :=
  match resp.methods with
  | some l => if l.length = 0 then corsAllowedMethods ep else l
  | none => []

/-- The OPTIONS-only headers (cors.go lines 148–173). -/
def corsOptionsHeaders (ep : Option CorsEndpointM)
    (resp : AccessControlResponse) (req : ACRequest) (h : Header) : Header :=
  let h4 := hSet h "Access-Control-Max-Age" (toString resp.maxAgeSeconds)
  let h5 := if req.method ≠ "" ∧ resp.methods ≠ none then
      hSet h4 "Access-Control-Allow-Methods"
        (joinSep ", " (corsMethodsValue ep resp))
    else h4
  if req.headers.length > 0 ∧ resp.allowedHeaders ≠ none then
    hSet h5 "Access-Control-Allow-Headers"
      (joinSep ", " (normalizeHeaderArray
        (match resp.allowedHeaders with
         | some l => if l.length = 0 then req.headers else l
         | none => [])))
  else h5

/-- The deferred closure of cors.go lines 131–135, run on exit. -/
def corsVary (h : Header) : Header :=
  if hGet h "Access-Control-Allow-Origin" ≠ "" ∧
     hGet h "Access-Control-Allow-Origin" ≠ "*" then
    addVary h "Origin"
  else h

/-- `accessControlHandler.ServeHTTP` (cors.go lines 111–174), as the
transformation it applies to the response headers. -/
def accessControlServe (ep : Option CorsEndpointM)
    (pol : AccessControlResponse) (r : CorsRequest) (h0 : Header) : Header :=
  if ¬ r.hasOriginKey then h0
  else
    let req := ParseAccessControlRequest r
    let resp := resolveCorsPolicy ep pol req r.method
    corsVary
      (if asciiUpper r.method ≠ "OPTIONS" then corsSimpleHeaders resp h0
       else corsOptionsHeaders ep resp req (corsSimpleHeaders resp h0))

theorem corsSimple_acam_hasKey (resp : AccessControlResponse) (h0 : Header) :
    hHasKey (corsSimpleHeaders resp h0) "Access-Control-Allow-Methods"
      = hHasKey h0 "Access-Control-Allow-Methods" := by
  simp only [corsSimpleHeaders]
  by_cases h2 : resp.exposedHeaders.length > 0
  · rw [if_pos h2, hHasKey_hSet_ne _ _ _ _ (by decide),
      hHasKey_hSet_ne _ _ _ _ (by decide)]
    by_cases h1 : resp.origin ≠ ""
    · rw [if_pos h1, hHasKey_hSet_ne _ _ _ _ (by decide)]
    · rw [if_neg h1]
  · rw [if_neg h2, hHasKey_hSet_ne _ _ _ _ (by decide)]
    by_cases h1 : resp.origin ≠ ""
    · rw [if_pos h1, hHasKey_hSet_ne _ _ _ _ (by decide)]
    · rw [if_neg h1]

theorem corsVary_acam_hasKey (h : Header) :
    hHasKey (corsVary h) "Access-Control-Allow-Methods"
      = hHasKey h "Access-Control-Allow-Methods" := by
  unfold corsVary
  by_cases hc : hGet h "Access-Control-Allow-Origin" ≠ "" ∧
      hGet h "Access-Control-Allow-Origin" ≠ "*"
  · rw [if_pos hc, hHasKey_addVary_ne _ _ _ (by decide)]
  · rw [if_neg hc]

theorem corsVary_acam_get (h : Header) :
    hGet (corsVary h) "Access-Control-Allow-Methods"
      = hGet h "Access-Control-Allow-Methods" := by
  unfold corsVary
  by_cases hc : hGet h "Access-Control-Allow-Origin" ≠ "" ∧
      hGet h "Access-Control-Allow-Origin" ≠ "*"
  · rw [if_pos hc, hGet_addVary_ne _ _ _ (by decide)]
  · rw [if_neg hc]

theorem corsOptions_acam_some (ep : Option CorsEndpointM)
    (resp : AccessControlResponse) (req : ACRequest) (h : Header)
    (hm : req.method ≠ "") (l : List String) (hms : resp.methods = some l) :
    hHasKey (corsOptionsHeaders ep resp req h) "Access-Control-Allow-Methods"
        = true ∧
    hGet (corsOptionsHeaders ep resp req h) "Access-Control-Allow-Methods"
        = joinSep ", " (corsMethodsValue ep resp) := by
  simp only [corsOptionsHeaders]
  have h5 : req.method ≠ "" ∧ resp.methods ≠ none :=
    ⟨hm, by rw [hms]; exact fun hc => Option.noConfusion hc⟩
  by_cases h6 : req.headers.length > 0 ∧ resp.allowedHeaders ≠ none
  · rw [if_pos h6, hHasKey_hSet_ne _ _ _ _ (by decide),
      hGet_hSet_ne _ _ _ _ (by decide), if_pos h5,
      hHasKey_hSet_same, hGet_hSet_same]
    exact ⟨rfl, rfl⟩
  · rw [if_neg h6, if_pos h5, hHasKey_hSet_same, hGet_hSet_same]
    exact ⟨rfl, rfl⟩

theorem corsOptions_acam_none (ep : Option CorsEndpointM)
    (resp : AccessControlResponse) (req : ACRequest) (h : Header)
    (hms : resp.methods = none) :
    hHasKey (corsOptionsHeaders ep resp req h) "Access-Control-Allow-Methods"
      = hHasKey h "Access-Control-Allow-Methods" := by
  simp only [corsOptionsHeaders]
  have h5n : ¬ (req.method ≠ "" ∧ resp.methods ≠ none) := fun hc => hc.2 hms
  by_cases h6 : req.headers.length > 0 ∧ resp.allowedHeaders ≠ none
  · rw [if_pos h6, hHasKey_hSet_ne _ _ _ _ (by decide), if_neg h5n,
      hHasKey_hSet_ne _ _ _ _ (by decide)]
  · rw [if_neg h6, if_neg h5n, hHasKey_hSet_ne _ _ _ _ (by decide)]

/-- C8: on a CORS preflight (OPTIONS with the `Origin` key present) that
carries `Access-Control-Request-Method`, the handler sets
`Access-Control-Allow-Methods` iff the resolved policy's methods field is
non-nil; the value is the policy's explicit list joined when non-empty,
and the endpoint's full allowed-method list when the field is
empty-but-non-nil. -/
theorem accessControl_allow_methods_c8 (ep : Option CorsEndpointM)
    (pol : AccessControlResponse) (r : CorsRequest) (h0 : Header)
    (hor : r.hasOriginKey = true)
    (hopt : asciiUpper r.method = "OPTIONS")
    (hacr : r.acrMethod ≠ "")
    (h0m : hHasKey h0 "Access-Control-Allow-Methods" = false) :
    (hHasKey (accessControlServe ep pol r h0) "Access-Control-Allow-Methods"
      = (resolveCorsPolicy ep pol (ParseAccessControlRequest r) r.method).methods.isSome) ∧
    (∀ l, (resolveCorsPolicy ep pol (ParseAccessControlRequest r) r.method).methods
        = some l →
      hGet (accessControlServe ep pol r h0) "Access-Control-Allow-Methods"
        = joinSep ", " (if l.length = 0 then corsAllowedMethods ep else l)) := by
  have hserve : accessControlServe ep pol r h0
      = corsVary (corsOptionsHeaders ep
          (resolveCorsPolicy ep pol (ParseAccessControlRequest r) r.method)
          (ParseAccessControlRequest r)
          (corsSimpleHeaders
            (resolveCorsPolicy ep pol (ParseAccessControlRequest r) r.method)
            h0)) := by
    simp only [accessControlServe]
    rw [if_neg (by simp [hor]), if_neg (fun hc => hc hopt)]
  have hreqm : (ParseAccessControlRequest r).method ≠ "" := hacr
  rcases hms : (resolveCorsPolicy ep pol (ParseAccessControlRequest r) r.method).methods
    with _ | l
  · constructor
    · rw [hserve, corsVary_acam_hasKey,
        corsOptions_acam_none _ _ _ _ hms, corsSimple_acam_hasKey, h0m]
      rfl
    · intro l hl
      exact absurd hl (by simp)
  · have hcore := corsOptions_acam_some ep
      (resolveCorsPolicy ep pol (ParseAccessControlRequest r) r.method)
      (ParseAccessControlRequest r)
      (corsSimpleHeaders
        (resolveCorsPolicy ep pol (ParseAccessControlRequest r) r.method) h0)
      hreqm l hms
    constructor
    · rw [hserve, corsVary_acam_hasKey, hcore.1]
      rfl
    · intro l2 hl2
      have hll : l = l2 := Option.some.inj hl2
      subst hll
      rw [hserve, corsVary_acam_get, hcore.2]
      have hval : corsMethodsValue ep
          (resolveCorsPolicy ep pol (ParseAccessControlRequest r) r.method)
          = if l.length = 0 then corsAllowedMethods ep else l := by
        unfold corsMethodsValue
        rw [hms]
      rw [hval]

/-- Endpoint, policy and request for the closed C8 instance. -/
def c8Ep : CorsEndpointM := ⟨⟨true, false, false, true, false, none⟩, none⟩

def c8Pol : AccessControlResponse := ⟨"*", ["Etag"], some [], some [], true, 86400⟩

def c8Req : CorsRequest := ⟨"OPTIONS", true, "http://client.example", "HEAD", ""⟩

theorem accessControl_allow_methods_c8_witness :
    hGet (accessControlServe (some c8Ep) c8Pol c8Req [])
        "Access-Control-Allow-Methods"
      = "HEAD, GET, POST" := by
  have h := (accessControl_allow_methods_c8 (some c8Ep) c8Pol c8Req []
    rfl (by decide) (by decide) rfl).2 [] rfl
  rw [h]
  decide
